import Mathlib

/-!
Verification development for the tabular ensemble Q-learning experiment
harness.

Sources under verification:
* q_learning/run.py  — experiment configuration, policy resolution, score
  aggregation, learning-rate construction;
* dqn/gym/dqn_net.py — network weight management (SimpleNet.set_weights).

The ensemble update algorithm (particle_q_learning.py), the exploration
policies (policy.py) and the decaying-parameter class of the mushroom
library are imported by run.py but are not among the provided sources;
those parts are modelled from the specification, as marked in their doc
comments.  Python floats are modelled by rationals (exact arithmetic),
except for the real-exponent learning-rate schedule which is modelled over
the reals.
-/

namespace WQL

/-- Q-table over nS states and nA actions: a map from a (state, action)
pair to a Q-value estimate. -/
abbrev QTable (nS nA : ℕ) := Fin nS → Fin nA → ℚ

/-- Modelled from the spec: a transition (state, action, reward, next
state, terminal flag) as consumed by the ensemble update algorithm of
particle_q_learning.py, which is not among the provided sources. -/
structure Transition (nS nA : ℕ) where
  s : Fin nS
  a : Fin nA
  r : ℚ
  next_state : Fin nS
  terminal : Bool
deriving DecidableEq

/-- Modelled from the spec: maximum over all actions of the Q-values of a
state (the max over a of Q(s, a)). -/
def rowMax {nS nA : ℕ} (Q : QTable nS nA) (s : Fin nS) : ℚ :=
  (((List.finRange nA).map (Q s)).max?).getD 0

/-- Modelled from the spec: mean over all ensemble members of the maximal
Q-value at a state. -/
def meanMaxNext {N nS nA : ℕ} (ens : Fin N → QTable nS nA) (s : Fin nS) : ℚ :=
  (∑ i : Fin N, rowMax (ens i) s) / (N : ℚ)

/-- Modelled from the spec: Bellman target for update type mean — reward
plus gamma times the ensemble mean of the next-state maxima; terminal
transitions use the reward alone (no bootstrap term). -/
def bellmanTarget {N nS nA : ℕ} (gamma : ℚ) (ens : Fin N → QTable nS nA)
    (t : Transition nS nA) : ℚ :=
  if t.terminal then t.r else t.r + gamma * meanMaxNext ens t.next_state

/-- Modelled from the spec: the pointwise update rule
Q(s,a) += lr * (target - Q(s,a)), leaving every other entry unchanged. -/
def updateEntry {nS nA : ℕ} (lr target : ℚ) (Q : QTable nS nA)
    (s : Fin nS) (a : Fin nA) : QTable nS nA :=
  fun s1 a1 => if s1 = s ∧ a1 = a then Q s1 a1 + lr * (target - Q s1 a1) else Q s1 a1

/-- Modelled from the spec: the agent state of the ensemble algorithm — an
ensemble of N Q-tables together with the per-entry visit counts that drive
the decaying learning rate. -/
structure ParticleAgent (N nS nA : ℕ) where
  ens : Fin N → QTable nS nA
  visits : Fin nS → Fin nA → ℕ

/-- Modelled from the spec: one update with update type mean and update
mode deterministic.  Every member receives the same target, computed from
the ensemble before the update; the visit count of the updated entry is
incremented and the learning rate is the schedule applied to the new
count. -/
def updateMeanDet {N nS nA : ℕ} (lrSched : ℕ → ℚ) (gamma : ℚ)
    (ag : ParticleAgent N nS nA) (t : Transition nS nA) : ParticleAgent N nS nA :=
  let lr := lrSched (ag.visits t.s t.a + 1)
  let tgt := bellmanTarget gamma ag.ens t
  ⟨fun i => updateEntry lr tgt (ag.ens i) t.s t.a,
   fun s1 a1 => if s1 = t.s ∧ a1 = t.a then ag.visits s1 a1 + 1 else ag.visits s1 a1⟩

/-- Modelled from the spec: feeding a sequence of transitions through the
deterministic mean update, one after the other. -/
def runUpdates {N nS nA : ℕ} (lrSched : ℕ → ℚ) (gamma : ℚ)
    (ag : ParticleAgent N nS nA) (ts : List (Transition nS nA)) : ParticleAgent N nS nA :=
  ts.foldl (updateMeanDet lrSched gamma) ag

/-- Concrete transition of the end-to-end spec scenario:
(s=0, a=0, r=1, next=1, terminal=true) over 2 states and 2 actions. -/
def t0 : Transition 2 2 := ⟨0, 0, 1, 1, true⟩

/-- Concrete agent of the end-to-end spec scenario: 3 members over 2
states and 2 actions, every entry 0, no visits yet. -/
def agZero3 : ParticleAgent 3 2 2 := ⟨fun _ _ _ => 0, fun _ _ => 0⟩

/-- C1: for a terminal transition the target is the reward alone, so the
updated entry of every member equals Q + lr * (reward - Q); moreover the
updated agent does not depend on the next-state field of the transition. -/
theorem terminal_update_no_bootstrap {N nS nA : ℕ} (lrSched : ℕ → ℚ) (gamma : ℚ)
    (ag : ParticleAgent N nS nA) (t : Transition nS nA) (i : Fin N)
    (hterm : t.terminal = true) :
    (updateMeanDet lrSched gamma ag t).ens i t.s t.a
      = ag.ens i t.s t.a
        + lrSched (ag.visits t.s t.a + 1) * (t.r - ag.ens i t.s t.a)
    ∧ ∀ s2 : Fin nS,
        updateMeanDet lrSched gamma ag { t with next_state := s2 }
          = updateMeanDet lrSched gamma ag t := by
  constructor
  · simp [updateMeanDet, updateEntry, bellmanTarget, hterm]
  · intro s2
    simp [updateMeanDet, updateEntry, bellmanTarget, hterm]

/-- Witness for C1 at a concrete agent and terminal transition. -/
theorem terminal_update_no_bootstrap_witness :
    t0.terminal = true
    ∧ ((updateMeanDet (fun _ => (1:ℚ)/2) ((9:ℚ)/10) agZero3 t0).ens 0 t0.s t0.a
        = agZero3.ens 0 t0.s t0.a
          + ((1:ℚ)/2) * (t0.r - agZero3.ens 0 t0.s t0.a)
      ∧ ∀ s2 : Fin 2,
          updateMeanDet (fun _ => (1:ℚ)/2) ((9:ℚ)/10) agZero3 { t0 with next_state := s2 }
            = updateMeanDet (fun _ => (1:ℚ)/2) ((9:ℚ)/10) agZero3 t0) :=
  ⟨rfl, terminal_update_no_bootstrap (fun _ => (1:ℚ)/2) ((9:ℚ)/10) agZero3 t0 0 rfl⟩

/-- C3: the end-to-end scenario — 3 members over 2 states and 2 actions,
all entries 0, one terminal transition (s=0, a=0, r=1, next=1) with
constant learning rate one half: every member ends with value one half at
entry (0,0) and 0 everywhere else, for every discount factor gamma. -/
theorem particle_single_update_concrete (gamma : ℚ) :
    (updateMeanDet (fun _ => (1:ℚ)/2) gamma agZero3 t0).ens
      = fun _ => fun s a => if s = 0 ∧ a = 0 then (1:ℚ)/2 else 0 := by
  funext i s a
  fin_cases s <;> fin_cases a <;>
    simp [updateMeanDet, updateEntry, bellmanTarget, agZero3, t0]

/-- C2: with update type mean and update mode deterministic, an ensemble
whose members all start at the same constant value keeps all members
entry-for-entry identical after every transition of any sequence. -/
theorem mean_det_preserves_identical {N nS nA : ℕ} (lrSched : ℕ → ℚ) (gamma : ℚ)
    (ag : ParticleAgent N nS nA) (c : ℚ) (hinit : ∀ i, ag.ens i = fun _ _ => c)
    (ts : List (Transition nS nA)) (i j : Fin N) :
    (runUpdates lrSched gamma ag ts).ens i = (runUpdates lrSched gamma ag ts).ens j := by
  have key : ∀ (ts : List (Transition nS nA)) (ag : ParticleAgent N nS nA),
      (∀ i j : Fin N, ag.ens i = ag.ens j) →
      ∀ i j : Fin N,
        (runUpdates lrSched gamma ag ts).ens i = (runUpdates lrSched gamma ag ts).ens j := by
    intro ts
    induction ts with
    | nil => intro ag h i j; exact h i j
    | cons t ts ih =>
      intro ag h i j
      have hstep : ∀ i j : Fin N,
          (updateMeanDet lrSched gamma ag t).ens i
            = (updateMeanDet lrSched gamma ag t).ens j := by
        intro i j
        show updateEntry _ _ (ag.ens i) t.s t.a = updateEntry _ _ (ag.ens j) t.s t.a
        rw [h i j]
      exact ih (updateMeanDet lrSched gamma ag t) hstep i j
  exact key ts ag (fun i j => by rw [hinit i, hinit j]) i j

/-- Concrete agent for the C2 witness: 2 members over one state and one
action, both entries 3. -/
def agConst2 : ParticleAgent 2 1 1 := ⟨fun _ _ _ => 3, fun _ _ => 0⟩

/-- Witness for C2 at a concrete constant ensemble and a one-transition
sequence. -/
theorem mean_det_preserves_identical_witness :
    (∀ i : Fin 2, agConst2.ens i = fun _ _ => (3:ℚ))
    ∧ (runUpdates (fun _ => (1:ℚ)/2) ((1:ℚ)/2) agConst2 [⟨0, 0, 2, 0, false⟩]).ens 0
        = (runUpdates (fun _ => (1:ℚ)/2) ((1:ℚ)/2) agConst2 [⟨0, 0, 2, 0, false⟩]).ens 1 :=
  ⟨fun _ => rfl,
   mean_det_preserves_identical (fun _ => (1:ℚ)/2) ((1:ℚ)/2) agConst2 3
     (fun _ => rfl) [⟨0, 0, 2, 0, false⟩] 0 1⟩

/-- Modelled from the spec: ensemble mean of the Q-values of action a at
state s (policy.py is not among the provided sources). -/
def ensMean {N nS nA : ℕ} (ens : Fin N → QTable nS nA) (s : Fin nS) (a : Fin nA) : ℚ :=
  (∑ i : Fin N, ens i s a) / (N : ℚ)

/-- Modelled from the spec: across-member variance of the Q-values of
action a at state s — the square of the ensemble standard deviation. -/
def ensVar {N nS nA : ℕ} (ens : Fin N → QTable nS nA) (s : Fin nS) (a : Fin nA) : ℚ :=
  (∑ i : Fin N, (ens i s a - ensMean ens s a) ^ 2) / (N : ℚ)

/-- Modelled from the spec: the mean of the best competing action — the
max over the other actions of the ensemble mean. -/
def bestOtherMean {N nS nA : ℕ} (ens : Fin N → QTable nS nA) (s : Fin nS)
    (a : Fin nA) : ℚ :=
  (((((List.finRange nA).filter (fun b => b ≠ a)).map (ensMean ens s)).max?).getD
    (ensMean ens s a))

/-- Modelled from the spec: the VPI bonus of an action — a closed-form
function of the gap between the mean of the action and the mean of the
best competing action, scaled by the ensemble standard deviation.  Since
policy.py is not among the provided sources, the closed-form shape and the
square root are abstract parameters; the scaling by the standard deviation
is the structure the spec fixes. -/
def vpiBonus {N nS nA : ℕ} (sqrtFn : ℚ → ℚ) (shape : ℚ → ℚ → ℚ)
    (ens : Fin N → QTable nS nA) (s : Fin nS) (a : Fin nA) : ℚ :=
  sqrtFn (ensVar ens s a)
    * shape (ensMean ens s a - bestOtherMean ens s a) (sqrtFn (ensVar ens s a))

/-- Modelled from the spec: final VPI score = ensemble mean + VPI bonus. -/
def vpiScore {N nS nA : ℕ} (sqrtFn : ℚ → ℚ) (shape : ℚ → ℚ → ℚ)
    (ens : Fin N → QTable nS nA) (s : Fin nS) (a : Fin nA) : ℚ :=
  ensMean ens s a + vpiBonus sqrtFn shape ens s a

/-- Actions attaining the maximal value of a score function: the candidate
set from which ties are broken uniformly at random. -/
def argmaxActions {nA : ℕ} (f : Fin nA → ℚ) : List (Fin nA) :=
  (List.finRange nA).filter (fun a => decide (∀ b, f b ≤ f a))

/-- C4: when all ensemble members agree exactly on every action of a state
(and the square root of 0 is 0), the VPI bonus vanishes for every action
and the VPI score argmax set coincides with the plain greedy argmax set
over the ensemble mean. -/
theorem vpi_zero_variance_greedy {N nS nA : ℕ} (sqrtFn : ℚ → ℚ) (shape : ℚ → ℚ → ℚ)
    (ens : Fin N → QTable nS nA) (s : Fin nS)
    (hsqrt : sqrtFn 0 = 0)
    (hagree : ∀ i j : Fin N, ∀ a : Fin nA, ens i s a = ens j s a) :
    (∀ a, vpiBonus sqrtFn shape ens s a = 0)
    ∧ argmaxActions (vpiScore sqrtFn shape ens s) = argmaxActions (ensMean ens s) := by
  have hvar : ∀ a, ensVar ens s a = 0 := by
    intro a
    rcases Nat.eq_zero_or_pos N with hN | hN
    · subst hN
      simp [ensVar]
    · obtain ⟨i0⟩ := Fin.pos_iff_nonempty.mp hN
      have hmean : ensMean ens s a = ens i0 s a := by
        unfold ensMean
        rw [Finset.sum_congr rfl (fun i _ => hagree i i0 a), Finset.sum_const,
          Finset.card_univ, Fintype.card_fin, nsmul_eq_mul]
        exact mul_div_cancel_left₀ _ (Nat.cast_ne_zero.mpr hN.ne')
      unfold ensVar
      rw [Finset.sum_eq_zero, zero_div]
      intro i _
      rw [hmean, hagree i i0 a]
      ring
  have hbonus : ∀ a, vpiBonus sqrtFn shape ens s a = 0 := by
    intro a
    unfold vpiBonus
    rw [hvar a, hsqrt, zero_mul]
  refine ⟨hbonus, ?_⟩
  have hscore : vpiScore sqrtFn shape ens s = ensMean ens s := by
    funext a
    rw [vpiScore, hbonus a, add_zero]
  rw [hscore]

/-- Concrete agreeing ensemble for the C4 witness: 2 members over one
state and 2 actions, both preferring action 0. -/
def ensAgree : Fin 2 → QTable 1 2 := fun _ _ a => if a = 0 then 1 else 0

/-- Witness for C4 at a concrete agreeing ensemble, square root the
identity and a nonzero closed-form shape. -/
theorem vpi_zero_variance_greedy_witness :
    (id (0:ℚ) = 0)
    ∧ (∀ i j : Fin 2, ∀ a : Fin 2, ensAgree i 0 a = ensAgree j 0 a)
    ∧ ((∀ a, vpiBonus id (fun _ _ => (5:ℚ)) ensAgree 0 a = 0)
      ∧ argmaxActions (vpiScore id (fun _ _ => (5:ℚ)) ensAgree 0)
          = argmaxActions (ensMean ensAgree 0)) :=
  ⟨rfl, by decide,
   vpi_zero_variance_greedy id (fun _ _ => (5:ℚ)) ensAgree 0 rfl (by decide)⟩

/-- One dataset row as consumed by compute_scores (run.py lines 43-47):
only index 2 (the reward) and index -1 (the final flag) of a row are
read. -/
structure Sample where
  reward : ℚ
  last : Bool
deriving DecidableEq

/-- Accumulator of the compute_scores loop (run.py lines 35-53). -/
structure ScoreAcc where
  scores : List ℚ
  disc_scores : List ℚ
  lens : List ℕ
  score : ℚ
  disc_score : ℚ
  episode_steps : ℕ
  n_episodes : ℕ
deriving DecidableEq

/-- One iteration of the compute_scores loop (run.py lines 43-53): add the
reward to the running score and the discounted running score, count the
step, and on the final flag append the episode totals and reset the score
and the step counter.  As in the source, disc_score is not reset. -/
def scoreStep (gamma : ℚ) (acc : ScoreAcc) (d : Sample) : ScoreAcc :=
  let score := acc.score + d.reward
  let disc_score := acc.disc_score + d.reward * gamma ^ acc.episode_steps
  let episode_steps := acc.episode_steps + 1
  if d.last then
    ⟨acc.scores ++ [score], acc.disc_scores ++ [disc_score], acc.lens ++ [episode_steps],
     0, disc_score, 0, acc.n_episodes + 1⟩
  else
    ⟨acc.scores, acc.disc_scores, acc.lens, score, disc_score, episode_steps, acc.n_episodes⟩

/-- Minimum of a list of rationals, as np.min on a nonempty array. -/
def listMin (l : List ℚ) : ℚ := (l.min?).getD 0

/-- Maximum of a list of rationals, as np.max on a nonempty array. -/
def listMax (l : List ℚ) : ℚ := (l.max?).getD 0

/-- Arithmetic mean of a list of rationals, as np.mean. -/
def listMean (l : List ℚ) : ℚ := l.sum / (l.length : ℚ)

/-- Population variance of a list of rationals; np.std is its square
root. -/
def listVar (l : List ℚ) : ℚ :=
  ((l.map (fun x => (x - listMean l) ^ 2)).sum) / (l.length : ℚ)

/-- One entry of the tuple returned by compute_scores.  np.std returns the
square root of the population variance; the square root is kept symbolic
(sqrtOf) so that all remaining arithmetic stays exact. -/
inductive StatVal
  | num (q : ℚ)
  | sqrtOf (q : ℚ)
deriving DecidableEq

/-- compute_scores (run.py lines 34-60): fold the dataset through the
episode loop; if at least one episode finished return the ten statistics
(min/max/mean/std of scores and of discounted scores, mean length, episode
count), otherwise return eleven zeros. -/
def compute_scores (dataset : List Sample) (gamma : ℚ) : List StatVal :=
  let acc := dataset.foldl (scoreStep gamma) ⟨[], [], [], 0, 0, 0, 0⟩
  if 0 < acc.scores.length then
    [.num (listMin acc.scores), .num (listMax acc.scores),
     .num (listMean acc.scores), .sqrtOf (listVar acc.scores),
     .num (listMin acc.disc_scores), .num (listMax acc.disc_scores),
     .num (listMean acc.disc_scores), .sqrtOf (listVar acc.disc_scores),
     .num (listMean (acc.lens.map (Nat.cast))), .num (acc.n_episodes : ℚ)]
  else
    List.replicate 11 (.num 0)

/-- The episode-score list only grows along the compute_scores loop. -/
theorem scoreStep_foldl_length_le (gamma : ℚ) :
    ∀ (ds : List Sample) (acc : ScoreAcc),
      acc.scores.length ≤ ((ds.foldl (scoreStep gamma) acc).scores).length := by
  intro ds
  induction ds with
  | nil => intro acc; exact le_refl _
  | cons d ds ih =>
    intro acc
    refine le_trans ?_ (ih (scoreStep gamma acc d))
    unfold scoreStep
    split
    · simp
    · simp

/-- Without any final flag, the compute_scores loop appends no episode
score. -/
theorem scoreStep_foldl_no_last (gamma : ℚ) :
    ∀ (ds : List Sample) (acc : ScoreAcc),
      (∀ d ∈ ds, d.last = false) →
      ((ds.foldl (scoreStep gamma) acc).scores) = acc.scores := by
  intro ds
  induction ds with
  | nil => intro acc _; rfl
  | cons d ds ih =>
    intro acc h
    rw [List.foldl_cons, ih _ (fun x hx => h x (List.mem_cons_of_mem d hx))]
    unfold scoreStep
    rw [if_neg]
    simp [h d (List.mem_cons_self d ds)]

/-- With some final flag in the dataset, the compute_scores loop produces
at least one episode score. -/
theorem scoreStep_foldl_some_last (gamma : ℚ) :
    ∀ (ds : List Sample) (acc : ScoreAcc),
      (ds.any fun d => d.last) = true →
      0 < ((ds.foldl (scoreStep gamma) acc).scores).length := by
  intro ds
  induction ds with
  | nil => intro acc h; cases h
  | cons d ds ih =>
    intro acc h
    rw [List.foldl_cons]
    rw [List.any_cons] at h
    rcases Bool.or_eq_true_iff.mp h with hd | hds
    · refine lt_of_lt_of_le ?_ (scoreStep_foldl_length_le gamma ds (scoreStep gamma acc d))
      unfold scoreStep
      rw [if_pos hd]
      simp
    · exact ih _ hds

/-- C9: compute_scores returns a 10-entry tuple when some row carries the
final flag (at least one completed episode) and an 11-entry all-zero tuple
when none does — the two branches disagree in arity. -/
theorem compute_scores_arity (dataset : List Sample) (gamma : ℚ) :
    ((dataset.any fun d => d.last) = true → (compute_scores dataset gamma).length = 10)
    ∧ ((dataset.any fun d => d.last) = false →
        compute_scores dataset gamma = List.replicate 11 (.num 0)) := by
  constructor
  · intro h
    unfold compute_scores
    rw [if_pos (scoreStep_foldl_some_last gamma dataset _ h)]
    rfl
  · intro h
    unfold compute_scores
    rw [if_neg]
    rw [scoreStep_foldl_no_last gamma dataset _ ?hlast]
    · simp
    case hlast =>
      intro d hd
      have := List.any_eq_false.mp h d hd
      simpa using this

/-- Witness for C9: a one-row dataset whose row carries the final flag
yields the 10-entry tuple. -/
theorem compute_scores_arity_witness :
    (([⟨1, true⟩] : List Sample).any fun d => d.last) = true
    ∧ (compute_scores [⟨1, true⟩] ((1:ℚ)/2)).length = 10 :=
  ⟨rfl, (compute_scores_arity [⟨1, true⟩] ((1:ℚ)/2)).1 rfl⟩

/-- Agent constructed by experiment (run.py lines 101-139): for ql a
Q-table with every entry set to q_max (line 112); for boot-ql the
parameters mu = (q_max + q_min) / 2 and sigma = q_max - q_min
(lines 120-121); for particle-ql the bounds q_max and q_min
(lines 133-134). -/
inductive AgentInit (nS nA : ℕ)
  | qlAgent (Q : QTable nS nA)
  | bootQl (mu sigma : ℚ)
  | particleQl (q_max q_min : ℚ)

/-- Outcome of the configuration part of experiment: the policy actually
used, whether a warning was emitted, and the constructed agent. -/
structure ExperimentSetup (nS nA : ℕ) where
  policy : String
  warned : Bool
  agent : AgentInit nS nA

/-- Policy resolution and agent construction of experiment (run.py
lines 101-139).  A policy outside the allowed set of the chosen algorithm
triggers warnings.warn and a silent reassignment of the policy variable to
a default, modelled by the warned flag and the substituted name; the bare
raise ValueError for an unknown algorithm string is Except.error. -/
def experimentSetup (nS nA : ℕ) (algorithm policy : String) (q_max q_min : ℚ) :
    Except Unit (ExperimentSetup nS nA) :=
  if algorithm = "ql" then
    if policy ≠ "boltzmann" ∧ policy ≠ "eps-greedy" then
      .ok ⟨"eps-greedy", true, .qlAgent (fun _ _ => q_max)⟩
    else
      .ok ⟨policy, false, .qlAgent (fun _ _ => q_max)⟩
  else if algorithm = "boot-ql" then
    if policy ≠ "boot" ∧ policy ≠ "weighted" then
      .ok ⟨"boot", true, .bootQl ((q_max + q_min) / 2) (q_max - q_min)⟩
    else
      .ok ⟨policy, false, .bootQl ((q_max + q_min) / 2) (q_max - q_min)⟩
  else if algorithm = "particle-ql" then
    if policy ≠ "weighted" ∧ policy ≠ "vpi" then
      .ok ⟨"weighted", true, .particleQl q_max q_min⟩
    else
      .ok ⟨policy, false, .particleQl q_max q_min⟩
  else
    .error ()

/-- Counterexample to C5: the invalid combination of algorithm ql with
policy boot does not raise — experiment warns and silently substitutes
eps-greedy. -/
theorem experiment_ql_boot_does_not_raise :
    experimentSetup 2 2 "ql" "boot" 1 0
      = Except.ok ⟨"eps-greedy", true, AgentInit.qlAgent (fun _ _ => 1)⟩
    ∧ experimentSetup 2 2 "ql" "boot" 1 0 ≠ Except.error () := by
  constructor
  · rfl
  · intro h
    rw [show experimentSetup 2 2 "ql" "boot" 1 0
        = Except.ok ⟨"eps-greedy", true, AgentInit.qlAgent (fun _ _ => 1)⟩ from rfl] at h
    exact Except.noConfusion h

/-- C5 amended: every invalid algorithm/policy combination warns and
silently substitutes the default policy of the algorithm (eps-greedy for
ql, boot for boot-ql, weighted for particle-ql) instead of raising; only
an unrecognized algorithm string raises, and with no message. -/
theorem experiment_invalid_policy_warns (nS nA : ℕ) (policy : String)
    (q_max q_min : ℚ) :
    (policy ≠ "boltzmann" → policy ≠ "eps-greedy" →
      ∃ ag, experimentSetup nS nA "ql" policy q_max q_min
        = Except.ok ⟨"eps-greedy", true, ag⟩)
    ∧ (policy ≠ "boot" → policy ≠ "weighted" →
      ∃ ag, experimentSetup nS nA "boot-ql" policy q_max q_min
        = Except.ok ⟨"boot", true, ag⟩)
    ∧ (policy ≠ "weighted" → policy ≠ "vpi" →
      ∃ ag, experimentSetup nS nA "particle-ql" policy q_max q_min
        = Except.ok ⟨"weighted", true, ag⟩)
    ∧ experimentSetup nS nA "sarsa" policy q_max q_min = Except.error () := by
  refine ⟨fun h1 h2 => ⟨.qlAgent (fun _ _ => q_max), ?_⟩,
    fun h1 h2 => ⟨.bootQl ((q_max + q_min) / 2) (q_max - q_min), ?_⟩,
    fun h1 h2 => ⟨.particleQl q_max q_min, ?_⟩, ?_⟩
  · unfold experimentSetup
    rw [if_pos rfl, if_pos ⟨h1, h2⟩]
  · unfold experimentSetup
    rw [if_neg (by decide), if_pos rfl, if_pos ⟨h1, h2⟩]
  · unfold experimentSetup
    rw [if_neg (by decide), if_neg (by decide), if_pos rfl, if_pos ⟨h1, h2⟩]
  · unfold experimentSetup
    rw [if_neg (by decide), if_neg (by decide), if_neg (by decide)]

/-- Witness for the amended C5 at the concrete invalid policy vpi for
algorithm ql. -/
theorem experiment_invalid_policy_warns_witness :
    ("vpi" ≠ "boltzmann" ∧ "vpi" ≠ "eps-greedy")
    ∧ ∃ ag, experimentSetup 2 2 "ql" "vpi" 1 0 = Except.ok ⟨"eps-greedy", true, ag⟩ :=
  ⟨⟨by decide, by decide⟩,
   (experiment_invalid_policy_warns 2 2 "vpi" 1 0).1 (by decide) (by decide)⟩

/-- The agent component of a configuration outcome. -/
def agentOf {nS nA : ℕ} : Except Unit (ExperimentSetup nS nA) → Option (AgentInit nS nA)
  | .ok r => some r.agent
  | .error _ => none

/-- C8: for algorithm ql the constructed Q-table has every entry equal to
q_max, whatever the requested policy; for boot-ql the construction uses
mu = (q_max + q_min) / 2 and sigma = q_max - q_min. -/
theorem experiment_agent_initialization (nS nA : ℕ) (policy : String)
    (q_max q_min : ℚ) :
    agentOf (experimentSetup nS nA "ql" policy q_max q_min)
      = some (.qlAgent (fun _ _ => q_max))
    ∧ agentOf (experimentSetup nS nA "boot-ql" policy q_max q_min)
      = some (.bootQl ((q_max + q_min) / 2) (q_max - q_min)) := by
  constructor
  · unfold experimentSetup
    rw [if_pos rfl]
    split
    · rfl
    · rfl
  · unfold experimentSetup
    rw [if_neg (by decide), if_pos rfl]
    split
    · rfl
    · rfl

/-- Arguments of experiment (run.py line 62): no random seed is among
them. -/
structure ExperimentArgs where
  algorithm : String
  name : String
  update_mode : String
  update_type : String
  policy : String
  n_approximators : ℕ
  q_max : ℚ
  q_min : ℚ

/-- Model of run.py line 63, np.random.seed() with no argument: the
process-global NumPy random state is reseeded from operating-system
entropy; the experiment arguments play no part, and experiment itself has
no seed parameter. -/
def experimentSeed (_args : ExperimentArgs) (osEntropy : ℕ) : ℕ :=
  osEntropy

/-- The default arguments of the command-line interface
(run.py lines 184-211). -/
def defaultArgs : ExperimentArgs :=
  ⟨"particle-ql", "RiverSwim", "deterministic", "weighted", "boot", 10, 10000, 0⟩

/-- Counterexample to C6: two runs of experiment with identical arguments
obtain different random seeds whenever the hidden operating-system entropy
differs, because np.random.seed() is called with no argument and no seed
can be passed. -/
theorem experiment_seed_not_reproducible :
    experimentSeed defaultArgs 0 ≠ experimentSeed defaultArgs 1 := by
  decide

/-- C6 amended: experiment has no seed parameter; it reseeds the shared
process-global NumPy generator from operating-system entropy, so the
resulting random state is the entropy value alone, identical for any two
argument lists and not determined by the arguments. -/
theorem experiment_seed_from_entropy (a1 a2 : ExperimentArgs) (e : ℕ) :
    experimentSeed a1 e = e ∧ experimentSeed a1 e = experimentSeed a2 e :=
  ⟨rfl, rfl⟩

/-- Modelled from the spec: the per-entry decaying learning rate — the
class ExponentialDecayParameter is constructed in experiment (run.py
lines 97-98) but lives in the mushroom library, outside the provided
sources.  Its value at the n-th visit of a state-action pair is
value / n ^ decay_exp, a function of the visit count. -/
noncomputable def ExponentialDecayParameter (value decay_exp : ℝ) (n : ℕ) : ℝ :=
  value / (n : ℝ) ^ decay_exp

/-- The learning-rate schedule of experiment: value 1 and decay exponent
three tenths (run.py lines 97-98). -/
noncomputable def learning_rate (n : ℕ) : ℝ :=
  ExponentialDecayParameter 1 (3 / 10) n

/-- C7: the learning rate is strictly decreasing in the visit count, so
the second of two identical transitions applies a proportionally strictly
smaller correction than the first. -/
theorem learning_rate_strict_decrease (n m : ℕ) (h1 : 1 ≤ n) (hnm : n < m) :
    learning_rate m < learning_rate n := by
  unfold learning_rate ExponentialDecayParameter
  have hn : (0:ℝ) < (n : ℝ) := by exact_mod_cast h1
  have hpow : ((n : ℝ) ^ ((3:ℝ) / 10)) < ((m : ℝ) ^ ((3:ℝ) / 10)) :=
    Real.rpow_lt_rpow hn.le (by exact_mod_cast hnm) (by norm_num)
  have hppos : (0:ℝ) < (n : ℝ) ^ ((3:ℝ) / 10) := Real.rpow_pos_of_pos hn _
  exact one_div_lt_one_div_of_lt hppos hpow

/-- Witness for C7 at the first two visits. -/
theorem learning_rate_strict_decrease_witness :
    1 ≤ 1 ∧ 1 < 2 ∧ learning_rate 2 < learning_rate 1 :=
  ⟨Nat.le_refl 1, Nat.one_lt_two,
   learning_rate_strict_decrease 1 2 (by decide) (by decide)⟩

/-- The assignment loop of SimpleNet.set_weights (dqn_net.py lines 62-64):
for each index i of the collected variable list, the session assigns the
value weights[i] to variable i. -/
def assignAll (w weights : List ℚ) : List ℚ :=
  (List.range w.length).foldl (fun st i => st.set i (weights.getD i 0)) w

/-- SimpleNet.set_weights (dqn_net.py lines 57-64): w is the list of
current values of the global variables collected under the scope of the
network, weights the supplied list.  The assert on the two lengths
(line 60) precedes the assignment loop; its failure is modelled as none,
with the variables untouched. -/
def set_weights (w weights : List ℚ) : Option (List ℚ) :=
  if w.length = weights.length then some (assignAll w weights) else none

/-- Setting indices never changes the length of the value list. -/
theorem foldl_set_length (ws : List ℚ) :
    ∀ (l : List ℕ) (st : List ℚ),
      ((l.foldl (fun st i => st.set i (ws.getD i 0)) st)).length = st.length := by
  intro l
  induction l with
  | nil => intro st; rfl
  | cons i l ih =>
    intro st
    rw [List.foldl_cons, ih, List.length_set]

/-- An index outside the fold list keeps its value. -/
theorem foldl_set_getD_not_mem (ws : List ℚ) :
    ∀ (l : List ℕ) (st : List ℚ) (j : ℕ), j ∉ l →
      ((l.foldl (fun st i => st.set i (ws.getD i 0)) st)).getD j 0 = st.getD j 0 := by
  intro l
  induction l with
  | nil => intro st j _; rfl
  | cons i l ih =>
    intro st j hj
    rw [List.mem_cons, not_or] at hj
    rw [List.foldl_cons, ih _ j hj.2, List.getD_eq_getElem?_getD,
      List.getElem?_set_ne (fun h => hj.1 h.symm), ← List.getD_eq_getElem?_getD]

/-- An in-range index inside the fold list ends at the supplied value. -/
theorem foldl_set_getD_mem (ws : List ℚ) :
    ∀ (l : List ℕ) (st : List ℚ) (j : ℕ), j ∈ l → j < st.length →
      ((l.foldl (fun st i => st.set i (ws.getD i 0)) st)).getD j 0 = ws.getD j 0 := by
  intro l
  induction l with
  | nil => intro st j hj _; cases hj
  | cons i l ih =>
    intro st j hj hlt
    rw [List.foldl_cons]
    by_cases hjl : j ∈ l
    · exact ih _ j hjl (by rw [List.length_set]; exact hlt)
    · have hij : i = j := by
        rcases List.mem_cons.mp hj with h | h
        · exact h.symm
        · exact absurd h hjl
      subst hij
      rw [foldl_set_getD_not_mem ws l _ i hjl, List.getD_eq_getElem?_getD,
        List.getElem?_set_self (by exact hlt), Option.getD_some]

/-- When the lengths agree, the assignment loop turns the stored values
into exactly the supplied weights. -/
theorem assignAll_eq (w weights : List ℚ) (h : w.length = weights.length) :
    assignAll w weights = weights := by
  have hlen : (assignAll w weights).length = weights.length := by
    rw [assignAll, foldl_set_length, h]
  apply List.ext_getElem hlen
  intro j hj hjw
  have hmem : j ∈ List.range w.length := List.mem_range.mpr (by rw [h]; exact hjw)
  have := foldl_set_getD_mem weights (List.range w.length) w j hmem (by rw [h]; exact hjw)
  rw [← assignAll] at this
  rw [← List.getD_eq_getElem (assignAll w weights) 0 hj,
    ← List.getD_eq_getElem weights 0 hjw]
  exact this

/-- C10: set_weights fails fast on the length assert, assigning nothing,
when the supplied list has the wrong length, and otherwise assigns every
variable i the value weights[i], so the stored list becomes the supplied
one. -/
theorem set_weights_spec (w weights : List ℚ) :
    (w.length = weights.length → set_weights w weights = some weights)
    ∧ (w.length ≠ weights.length → set_weights w weights = none) := by
  constructor
  · intro h
    rw [set_weights, if_pos h, assignAll_eq w weights h]
  · intro h
    rw [set_weights, if_neg h]

/-- Witness for C10 at concrete equal-length lists. -/
theorem set_weights_spec_witness :
    ([1, 2] : List ℚ).length = ([3, 4] : List ℚ).length
    ∧ set_weights [1, 2] [3, 4] = some [3, 4] :=
  ⟨rfl, (set_weights_spec [1, 2] [3, 4]).1 rfl⟩

end WQL
